import Mathlib

/-!
Verification model of AutoExec.py, a supervisor that clones Git repositories,
runs one declared entry-point script per repository, restarts workers on crash
or upstream update, reconciles running supervisors against a definitions file,
and serves status over HTTP.

Every definition below is a shallow embedding of a function of `autoexec.py`;
line numbers in doc comments refer to that file.  External effects (the Git
command executor, the worker process, the OS scheduler) are supplied as
explicit environment records, and store/process side effects are recorded as
explicit action lists so that temporal ordering properties can be stated.
-/

namespace AutoExec

/-! ## Configuration constants (lines 17-27) -/

/-- `SERVICES_FILE` (line 17). -/
def SERVICES_FILE : String := "services.txt"

/-- `REPOS_DIR` (line 18). -/
def REPOS_DIR : String := "repos"

/-- `MAIN_LOOP_SLEEP` (line 20). -/
def MAIN_LOOP_SLEEP : Nat := 5

/-- `GIT_CHECK_INTERVAL` (line 22). -/
def GIT_CHECK_INTERVAL : Nat := 30

/-- `API_HOST` (line 25). -/
def API_HOST : String := "localhost"

/-- `API_PORT` (line 26). -/
def API_PORT : Nat := 8000

/-- `MAX_LOG_ENTRIES` (line 27). -/
def MAX_LOG_ENTRIES : Nat := 20

/-! ## The shared log buffer (`SharedLogHandler`, lines 41-52) -/

/-- The trimming loop of `SharedLogHandler.emit` (lines 51-52):
`while len(self.shared_list) > MAX_LOG_ENTRIES: self.shared_list.pop(0)`. -/
def trimExcess (maxEntries : Nat) : List String → List String
  | [] => []
  | x :: xs => if maxEntries < xs.length + 1 then trimExcess maxEntries xs else x :: xs

/-- `SharedLogHandler.emit` (lines 47-52): append the formatted record to the
shared list, then trim from the front down to `MAX_LOG_ENTRIES`. -/
def emit (shared_list : List String) (log_entry : String) : List String :=
  trimExcess MAX_LOG_ENTRIES (shared_list ++ [log_entry])

theorem trimExcess_eq_drop (m : Nat) (l : List String) :
    trimExcess m l = l.drop (l.length - m) := by
  induction l with
  | nil => simp [trimExcess]
  | cons x xs ih =>
    by_cases h : m < xs.length + 1
    · have h1 : xs.length + 1 - m = (xs.length - m) + 1 := by omega
      simp only [trimExcess, if_pos h, ih, List.length_cons, h1, List.drop_succ_cons]
    · have h1 : xs.length + 1 - m = 0 := by omega
      simp only [trimExcess, if_neg h, List.length_cons, h1, List.drop_zero]

theorem trimExcess_length_le (m : Nat) (l : List String) :
    (trimExcess m l).length ≤ m ∨ trimExcess m l = l := by
  rw [trimExcess_eq_drop]
  rcases le_or_lt l.length m with h | h
  · right; simp [Nat.sub_eq_zero_of_le h]
  · left; rw [List.length_drop]; omega

theorem emit_length_le (buf : List String) (x : String)
    (h : buf.length ≤ MAX_LOG_ENTRIES) : (emit buf x).length ≤ MAX_LOG_ENTRIES := by
  rw [emit, trimExcess_eq_drop, List.length_drop]
  simp only [List.length_append, List.length_cons, List.length_nil]
  omega

theorem emit_foldl (lines : List String) :
    ∀ buf : List String, buf.length ≤ MAX_LOG_ENTRIES →
      lines.foldl emit buf = trimExcess MAX_LOG_ENTRIES (buf ++ lines) := by
  induction lines with
  | nil =>
    intro buf h
    rw [List.foldl_nil, List.append_nil, trimExcess_eq_drop,
      Nat.sub_eq_zero_of_le h, List.drop_zero]
  | cons x xs ih =>
    intro buf h
    rw [List.foldl_cons, ih (emit buf x) (emit_length_le buf x h)]
    rw [emit, trimExcess_eq_drop, trimExcess_eq_drop, trimExcess_eq_drop]
    rcases le_or_lt (buf.length + 1) MAX_LOG_ENTRIES with hle | hlt
    · have h0 : (buf ++ [x]).length - MAX_LOG_ENTRIES = 0 := by
        simp only [List.length_append, List.length_cons, List.length_nil]; omega
      rw [h0, List.drop_zero]
      simp [List.append_assoc]
    · have hlen : (buf ++ [x]).length = buf.length + 1 := by simp
      have hk : (buf ++ [x]).length - MAX_LOG_ENTRIES
          = buf.length + 1 - MAX_LOG_ENTRIES := by rw [hlen]
      have hkle : buf.length + 1 - MAX_LOG_ENTRIES ≤ (buf ++ [x]).length := by
        rw [hlen]; omega
      rw [hk, ← List.drop_append_of_le_length hkle, List.drop_drop]
      have hassoc : buf ++ [x] ++ xs = buf ++ x :: xs := by simp
      rw [hassoc]
      congr 1
      simp only [List.length_drop, List.length_append, List.length_cons]
      omega

/-- C8: appending more lines than the capacity to a service log buffer leaves
exactly the capacity's worth of the most recently appended entries, in
oldest-first order; eviction always removes from the front.  The buffer starts
within capacity (it starts empty and `emit` keeps it within capacity). -/
theorem C8_log_buffer_keeps_most_recent (buf lines : List String)
    (hbuf : buf.length ≤ MAX_LOG_ENTRIES)
    (hlines : MAX_LOG_ENTRIES < lines.length) :
    lines.foldl emit buf = lines.drop (lines.length - MAX_LOG_ENTRIES) ∧
    (lines.foldl emit buf).length = MAX_LOG_ENTRIES := by
  have h1 := emit_foldl lines buf hbuf
  rw [trimExcess_eq_drop] at h1
  have hix : (buf ++ lines).length - MAX_LOG_ENTRIES
      = buf.length + (lines.length - MAX_LOG_ENTRIES) := by
    simp only [List.length_append]; omega
  rw [hix, List.drop_append] at h1
  refine ⟨h1, ?_⟩
  rw [h1, List.length_drop]
  omega

/-- Concrete list of 21 lines used to witness the log-buffer theorem. -/
def w8lines : List String :=
  ["l01", "l02", "l03", "l04", "l05", "l06", "l07", "l08", "l09", "l10",
   "l11", "l12", "l13", "l14", "l15", "l16", "l17", "l18", "l19", "l20", "l21"]

theorem C8_log_buffer_witness :
    ([] : List String).length ≤ MAX_LOG_ENTRIES ∧
    MAX_LOG_ENTRIES < w8lines.length ∧
    (w8lines.foldl emit [] = w8lines.drop (w8lines.length - MAX_LOG_ENTRIES) ∧
      (w8lines.foldl emit []).length = MAX_LOG_ENTRIES) :=
  ⟨by decide, by decide,
    C8_log_buffer_keeps_most_recent [] w8lines (by decide) (by decide)⟩

/-! ## The Service Supervisor (`manage_service`, lines 140-247)

One Supervisor owns one service.  Each iteration of its `while True` loop is a
polling cycle.  The results of the external Git commands, the filesystem
checks, and the worker-process poll are inputs of the cycle, gathered in
`CycleEnv`; the cycle's writes to the shared status record and its process
operations are recorded as a list of `Act` values in program order. -/

/-- The values written to `service_status["status"]`. -/
inductive Status where
  | initializing
  | cloning
  | failed
  | crashed
  | updating
  | running
  deriving DecidableEq, Repr

/-- External inputs of one iteration of the supervisor loop (lines 186-247).
`fetchOk` is whether `git fetch` succeeded (`run_command` returns `None` on
failure, line 190); `localHash` and `remoteHash` are the `git rev-parse`
results (lines 191-192, `none` for a failed command); `childHasExited` is
whether `child_process.poll() is not None` for the current child (line 196);
`pullOk` is the result of `git pull` (line 213); `autoexecExists`,
`autoexecContent` and `scriptExists` describe `autoexec.txt` and the declared
script (lines 219-230); `newPid` is the pid `subprocess.Popen` would assign
(line 236); `raises` is whether an unexpected exception interrupts the `try`
block at its start (line 242). -/
structure CycleEnv where
  fetchOk : Bool
  localHash : Option String
  remoteHash : Option String
  childHasExited : Bool
  pullOk : Bool
  autoexecExists : Bool
  autoexecContent : String
  scriptExists : Bool
  newPid : Nat
  raises : Bool
  deriving DecidableEq, Repr

/-- The supervisor-local state carried across loop iterations: the last status
written, the `script_to_run` and `script_pid` fields of the shared record, and
the local `child_process` variable (modelled by the worker's pid). -/
structure SupState where
  status : Status
  scriptToRun : Option String
  scriptPid : Option Nat
  child : Option Nat
  deriving DecidableEq, Repr

/-- Observable actions of a supervisor cycle, in program order.  `setStatus`,
`setPid` and `setScript` are the writes to the shared status record;
`terminate`, `waitProc` and `launch` are the worker-process operations;
`pull` carries the success of `git pull`; `sleepInterval` is
`time.sleep(GIT_CHECK_INTERVAL)`. -/
inductive Act where
  | fetch (ok : Bool)
  | revParseLocal
  | revParseRemote
  | setStatus (st : Status)
  | setPid (pid : Option Nat)
  | setScript (s : String)
  | terminate (pid : Nat)
  | waitProc (pid : Nat)
  | pull (ok : Bool)
  | launch (pid : Nat)
  | sleepInterval
  deriving DecidableEq, Repr

/-- `has_updates = local_hash != remote_hash and remote_hash is not None`
(line 193). -/
def hasUpdates (env : CycleEnv) : Bool :=
  decide (env.localHash ≠ env.remoteHash) && env.remoteHash.isSome

/-- The launch block of the loop (lines 218-238): if no worker is running,
read `autoexec.txt`; on a missing file, an empty declaration or a missing
script, log and sleep; otherwise spawn the worker, set state `running` and
record its pid.  A running worker only leads to the final sleep (line 240). -/
def launchPhase (env : CycleEnv) (s : SupState) (acts : List Act) :
    SupState × List Act :=
  match s.child with
  | some _ => (s, acts ++ [Act.sleepInterval])
  | none =>
    if env.autoexecExists then
      let script := env.autoexecContent
      let s' := { s with scriptToRun := some script }
      let acts' := acts ++ [Act.setScript script]
      if script = "" ∨ env.scriptExists = false then
        (s', acts' ++ [Act.sleepInterval])
      else
        ({ s' with
            status := Status.running,
            scriptPid := some env.newPid,
            child := some env.newPid },
          acts' ++ [Act.launch env.newPid, Act.setStatus Status.running,
            Act.setPid (some env.newPid), Act.sleepInterval])
    else (s, acts ++ [Act.sleepInterval])

/-- The body of the `try` block after `git fetch` (lines 191-240): rev-parse
both hashes, run the crash check (lines 196-200), apply a detected update
(lines 202-216: mark `updating`, terminate and wait on a running worker, pull,
and on pull failure sleep and retry without launching), then the launch block.
`fetchOk` is deliberately absent here: the code discards the result of
`run_command(["git", "fetch"], ...)` (line 190). -/
def cycleCore (env : CycleEnv) (s : SupState) : SupState × List Act :=
  let acts0 := [Act.revParseLocal, Act.revParseRemote]
  let cs :=
    match s.child with
    | some _ =>
      if env.childHasExited then
        ({ s with status := Status.crashed, scriptPid := none, child := none },
          acts0 ++ [Act.setStatus Status.crashed, Act.setPid none])
      else (s, acts0)
    | none => (s, acts0)
  if hasUpdates env then
    let s2 := { cs.1 with status := Status.updating }
    let acts2 := cs.2 ++ [Act.setStatus Status.updating]
    let ts :=
      match s2.child with
      | some pid =>
        ({ s2 with scriptPid := none, child := none },
          acts2 ++ [Act.terminate pid, Act.waitProc pid, Act.setPid none])
      | none => (s2, acts2)
    let acts3 := ts.2 ++ [Act.pull env.pullOk]
    if env.pullOk then launchPhase env ts.1 acts3
    else (ts.1, acts3 ++ [Act.sleepInterval])
  else launchPhase env cs.1 cs.2

/-- One full iteration of the supervisor loop (lines 186-247).  If an
unexpected exception interrupts the `try` block, the `except` handler
(lines 242-247) terminates the child if one is recorded (without clearing
`child_process`), sets the status to `failed`, sleeps, and the loop
continues.  Otherwise the cycle issues the fetch and runs `cycleCore`. -/
def cycleBody (env : CycleEnv) (s : SupState) : SupState × List Act :=
  if env.raises then
    ({ s with status := Status.failed },
      (match s.child with
        | some pid => [Act.terminate pid]
        | none => []) ++ [Act.setStatus Status.failed, Act.sleepInterval])
  else
    ((cycleCore env s).1, Act.fetch env.fetchOk :: (cycleCore env s).2)

/-- Run the supervisor loop for the given sequence of per-cycle environments,
concatenating the recorded actions. -/
def runCycles (envs : List CycleEnv) (s : SupState) : SupState × List Act :=
  match envs with
  | [] => (s, [])
  | e :: rest =>
    let r1 := cycleBody e s
    let r2 := runCycles rest r1.1
    (r2.1, r1.2 ++ r2.2)

/-- External inputs of the supervisor's start-up phase (lines 173-182):
whether `<repo_path>/.git` exists and whether `git clone` succeeds. -/
structure InitEnv where
  gitDirExists : Bool
  cloneOk : Bool
  deriving DecidableEq, Repr

/-- `manage_service` (lines 140-247): register the status record (initial
status `initializing`, line 162), set status `cloning` (line 174), clone if
there is no checkout, and on clone failure set status `failed` and return
(lines 179-182) without ever entering the polling loop; otherwise run the
polling loop over the supplied cycle environments. -/
def manage_service (ienv : InitEnv) (envs : List CycleEnv) :
    SupState × List Act :=
  let s0 : SupState :=
    { status := Status.initializing, scriptToRun := none,
      scriptPid := none, child := none }
  let s1 := { s0 with status := Status.cloning }
  let actsInit := [Act.setStatus Status.cloning]
  if ienv.gitDirExists = false ∧ ienv.cloneOk = false then
    ({ s1 with status := Status.failed },
      actsInit ++ [Act.setStatus Status.failed])
  else
    let r := runCycles envs s1
    (r.1, actsInit ++ r.2)

/-! ## Claims about the supervisor cycle -/

/-- C4: in a polling cycle that detects an update while a worker is running,
the worker is terminated and waited on strictly before the pull is issued; on
pull failure the cycle ends with a sleep, no launch happens and the worker
reference stays cleared (retry next interval); a launch can only occur when
the pull succeeded; and after the cycle the old worker is gone - the recorded
child is either cleared or the freshly launched pid. -/
theorem C4_update_stops_worker_before_pull (env : CycleEnv) (s : SupState)
    (c : Nat) (hr : env.raises = false) (hu : hasUpdates env = true)
    (hc : s.child = some c) (hx : env.childHasExited = false) :
    (∃ rest,
      (cycleBody env s).2 =
        Act.fetch env.fetchOk :: Act.revParseLocal :: Act.revParseRemote ::
        Act.setStatus Status.updating :: Act.terminate c :: Act.waitProc c ::
        Act.setPid none :: Act.pull env.pullOk :: rest) ∧
    (env.pullOk = false →
      (cycleBody env s).2 =
        [Act.fetch env.fetchOk, Act.revParseLocal, Act.revParseRemote,
          Act.setStatus Status.updating, Act.terminate c, Act.waitProc c,
          Act.setPid none, Act.pull false, Act.sleepInterval] ∧
      (cycleBody env s).1.child = none ∧
      ∀ p, Act.launch p ∉ (cycleBody env s).2) ∧
    (∀ p, Act.launch p ∈ (cycleBody env s).2 → env.pullOk = true) ∧
    ((cycleBody env s).1.child = none ∨
      (cycleBody env s).1.child = some env.newPid) := by
  by_cases hp : env.pullOk = true
  · by_cases ha : env.autoexecExists = true
    · by_cases hscr : env.autoexecContent = "" ∨ env.scriptExists = false
      · refine ⟨⟨[Act.setScript env.autoexecContent, Act.sleepInterval], ?_⟩,
          ?_, ?_, ?_⟩ <;>
          simp [cycleBody, cycleCore, launchPhase, hr, hc, hx, hu, hp, ha, hscr]
      · refine ⟨⟨[Act.setScript env.autoexecContent, Act.launch env.newPid,
            Act.setStatus Status.running, Act.setPid (some env.newPid),
            Act.sleepInterval], ?_⟩, ?_, ?_, ?_⟩ <;>
          simp [cycleBody, cycleCore, launchPhase, hr, hc, hx, hu, hp, ha, hscr]
    · refine ⟨⟨[Act.sleepInterval], ?_⟩, ?_, ?_, ?_⟩ <;>
        simp [cycleBody, cycleCore, launchPhase, hr, hc, hx, hu, hp, ha]
  · refine ⟨⟨[Act.sleepInterval], ?_⟩, ?_, ?_, ?_⟩ <;>
      simp [cycleBody, cycleCore, launchPhase, hr, hc, hx, hu, hp]

/-- Environment for the C4 witness: an update is available, a worker (pid 5)
is running, and the pull fails. -/
def w4env : CycleEnv :=
  { fetchOk := true, localHash := some "aaa", remoteHash := some "bbb",
    childHasExited := false, pullOk := false, autoexecExists := true,
    autoexecContent := "run.py", scriptExists := true, newPid := 6,
    raises := false }

/-- Supervisor state for the C4 witness: worker pid 5 recorded as running. -/
def w4state : SupState :=
  { status := Status.running, scriptToRun := some "run.py",
    scriptPid := some 5, child := some 5 }

theorem C4_update_stops_worker_witness :
    w4env.raises = false ∧ hasUpdates w4env = true ∧
    w4state.child = some 5 ∧ w4env.childHasExited = false ∧
    ((∃ rest,
      (cycleBody w4env w4state).2 =
        Act.fetch w4env.fetchOk :: Act.revParseLocal :: Act.revParseRemote ::
        Act.setStatus Status.updating :: Act.terminate 5 :: Act.waitProc 5 ::
        Act.setPid none :: Act.pull w4env.pullOk :: rest) ∧
    (w4env.pullOk = false →
      (cycleBody w4env w4state).2 =
        [Act.fetch w4env.fetchOk, Act.revParseLocal, Act.revParseRemote,
          Act.setStatus Status.updating, Act.terminate 5, Act.waitProc 5,
          Act.setPid none, Act.pull false, Act.sleepInterval] ∧
      (cycleBody w4env w4state).1.child = none ∧
      ∀ p, Act.launch p ∉ (cycleBody w4env w4state).2) ∧
    (∀ p, Act.launch p ∈ (cycleBody w4env w4state).2 → w4env.pullOk = true) ∧
    ((cycleBody w4env w4state).1.child = none ∨
      (cycleBody w4env w4state).1.child = some w4env.newPid)) :=
  ⟨by decide, by decide, by decide, by decide,
    C4_update_stops_worker_before_pull w4env w4state 5
      (by decide) (by decide) (by decide) (by decide)⟩

/-- C5: if the recorded worker has exited without the supervisor having
requested termination (`child_process` still set, `poll()` not `None`), then
within that same polling cycle the supervisor writes status `crashed`, clears
the worker pid, and - the launch preconditions holding (declaration file
present, script declared and existing, and any concurrent pull succeeding) -
relaunches the worker, ending the cycle `running` with the fresh pid. -/
theorem C5_crashed_worker_relaunched_same_cycle (env : CycleEnv) (s : SupState)
    (c : Nat) (hr : env.raises = false) (hc : s.child = some c)
    (hx : env.childHasExited = true) (hp : env.pullOk = true)
    (ha : env.autoexecExists = true) (hne : ¬ env.autoexecContent = "")
    (hs : env.scriptExists = true) :
    Act.setStatus Status.crashed ∈ (cycleBody env s).2 ∧
    Act.setPid none ∈ (cycleBody env s).2 ∧
    Act.launch env.newPid ∈ (cycleBody env s).2 ∧
    (cycleBody env s).1.status = Status.running ∧
    (cycleBody env s).1.child = some env.newPid := by
  by_cases hu : hasUpdates env = true
  · refine ⟨?_, ?_, ?_, ?_, ?_⟩ <;>
      simp [cycleBody, cycleCore, launchPhase, hr, hc, hx, hu, hp, ha, hne, hs]
  · refine ⟨?_, ?_, ?_, ?_, ?_⟩ <;>
      simp [cycleBody, cycleCore, launchPhase, hr, hc, hx, hu, hp, ha, hne, hs]

/-- Environment for the C5 witness: no update, worker (pid 7) has exited
unexpectedly, relaunch preconditions hold. -/
def w5env : CycleEnv :=
  { fetchOk := true, localHash := some "ccc", remoteHash := some "ccc",
    childHasExited := true, pullOk := true, autoexecExists := true,
    autoexecContent := "app.py", scriptExists := true, newPid := 8,
    raises := false }

/-- Supervisor state for the C5 witness: worker pid 7 recorded as running. -/
def w5state : SupState :=
  { status := Status.running, scriptToRun := some "app.py",
    scriptPid := some 7, child := some 7 }

theorem C5_crashed_worker_witness :
    w5env.raises = false ∧ w5state.child = some 7 ∧
    w5env.childHasExited = true ∧ w5env.pullOk = true ∧
    w5env.autoexecExists = true ∧ ¬ w5env.autoexecContent = "" ∧
    w5env.scriptExists = true ∧
    (Act.setStatus Status.crashed ∈ (cycleBody w5env w5state).2 ∧
      Act.setPid none ∈ (cycleBody w5env w5state).2 ∧
      Act.launch w5env.newPid ∈ (cycleBody w5env w5state).2 ∧
      (cycleBody w5env w5state).1.status = Status.running ∧
      (cycleBody w5env w5state).1.child = some w5env.newPid) :=
  ⟨by decide, by decide, by decide, by decide, by decide, by decide, by decide,
    C5_crashed_worker_relaunched_same_cycle w5env w5state 7
      (by decide) (by decide) (by decide) (by decide) (by decide) (by decide)
      (by decide)⟩

/-- Cycle environment in which an unexpected exception interrupts the loop
body (the `except` path, lines 242-247). -/
def c3envRaise : CycleEnv :=
  { fetchOk := true, localHash := some "hhh", remoteHash := some "hhh",
    childHasExited := false, pullOk := true, autoexecExists := true,
    autoexecContent := "app.py", scriptExists := true, newPid := 8,
    raises := true }

/-- The cycle after the exception: the terminated child is seen as exited,
no update is available, and the launch preconditions hold. -/
def c3envNext : CycleEnv :=
  { fetchOk := true, localHash := some "hhh", remoteHash := some "hhh",
    childHasExited := true, pullOk := true, autoexecExists := true,
    autoexecContent := "app.py", scriptExists := true, newPid := 8,
    raises := false }

/-- Supervisor state before the exception: worker pid 7 running. -/
def c3state : SupState :=
  { status := Status.running, scriptToRun := some "app.py",
    scriptPid := some 7, child := some 7 }

/-- C3 counterexample: the claim that `failed` is terminal for a Supervisor
instance is false.  After the `except` handler writes `failed`
(lines 242-247) the loop continues: on the very next cycle the same instance
transitions to `crashed` and then relaunches, ending with status `running` -
it neither stops transitioning nor exits. -/
theorem C3_failed_not_terminal_cex :
    Act.setStatus Status.failed ∈ (runCycles [c3envRaise, c3envNext] c3state).2 ∧
    Act.setStatus Status.crashed ∈ (runCycles [c3envRaise, c3envNext] c3state).2 ∧
    (runCycles [c3envRaise, c3envNext] c3state).1.status = Status.running := by
  decide

/-- C3 amended: only the initial clone failure is terminal.  When the checkout
is absent and the clone fails, `manage_service` writes `cloning` then `failed`
and returns: the polling loop is never entered, so no further status
transition of any kind is performed by that instance, whatever cycle
environments would have followed. -/
theorem C3_clone_failure_terminal (ienv : InitEnv) (envs : List CycleEnv)
    (hg : ienv.gitDirExists = false) (hcl : ienv.cloneOk = false) :
    manage_service ienv envs =
      ({ status := Status.failed, scriptToRun := none, scriptPid := none,
          child := none },
        [Act.setStatus Status.cloning, Act.setStatus Status.failed]) := by
  simp [manage_service, hg, hcl]

theorem C3_clone_failure_terminal_witness :
    (InitEnv.mk false false).gitDirExists = false ∧
    (InitEnv.mk false false).cloneOk = false ∧
    manage_service (InitEnv.mk false false) [c3envNext] =
      ({ status := Status.failed, scriptToRun := none, scriptPid := none,
          child := none },
        [Act.setStatus Status.cloning, Act.setStatus Status.failed]) :=
  ⟨by decide, by decide,
    C3_clone_failure_terminal (InitEnv.mk false false) [c3envNext]
      (by decide) (by decide)⟩

/-- Cycle environment for the C9 counterexample: `git fetch` fails but both
rev-parse commands succeed and report different hashes. -/
def c9env : CycleEnv :=
  { fetchOk := false, localHash := some "aaa", remoteHash := some "bbb",
    childHasExited := false, pullOk := true, autoexecExists := true,
    autoexecContent := "run.py", scriptExists := true, newPid := 9,
    raises := false }

/-- Fresh supervisor state for the C9 counterexample. -/
def c9state : SupState :=
  { status := Status.cloning, scriptToRun := none, scriptPid := none,
    child := none }

/-- C9 counterexample: a failed remote-refs fetch does not end the cycle
early.  With `fetchOk = false` the cycle still compares hashes, still pulls,
and still launches the worker - the fetch result is discarded at line 190
(its failure is only logged inside `run_command`). -/
theorem C9_fetch_failure_does_not_end_cycle_cex :
    Act.pull true ∈ (cycleBody c9env c9state).2 ∧
    Act.launch 9 ∈ (cycleBody c9env c9state).2 ∧
    (cycleBody c9env c9state).1.status = Status.running := by
  decide

/-- Erase the success flag of the recorded fetch action, for stating that a
cycle's behaviour does not depend on it. -/
def scrubFetch : Act → Act
  | Act.fetch _ => Act.fetch true
  | a => a

/-- C9 amended: the fetch result is ignored - a cycle run with a failed fetch
produces the same successor state and the same actions apart from the fetch
record itself - and "update available" holds exactly when the local HEAD hash
differs from the remote branch hash and the remote hash is resolvable
(line 193). -/
theorem C9_fetch_ignored_update_iff (env : CycleEnv) (s : SupState) (b : Bool) :
    (cycleBody { env with fetchOk := b } s).1 = (cycleBody env s).1 ∧
    ((cycleBody { env with fetchOk := b } s).2).map scrubFetch =
      ((cycleBody env s).2).map scrubFetch ∧
    (hasUpdates env = true ↔
      env.localHash ≠ env.remoteHash ∧ env.remoteHash ≠ none) := by
  obtain ⟨f, l, r, cx, p, a, ac, se, np, ra⟩ := env
  refine ⟨?_, ?_, ?_⟩
  · cases ra
    · rfl
    · rfl
  · cases ra
    · rfl
    · rfl
  · simp [hasUpdates, Option.isSome_iff_ne_none]

/-! ## The status API (`create_api_handler` / `do_GET`, lines 99-125)

The field values found in a service's status record are Python runtime
values: strings, integers, `None`, `multiprocessing.Manager` list proxies
(the `logs` field), plain lists, and - relevant only to the `isinstance`
test the code performs - class objects. -/

/-- Python runtime values appearing in `do_GET`'s service records. -/
inductive PyVal where
  | pstr (s : String)
  | pint (n : Int)
  | pnone
  | listProxy (items : List String)
  | pylist (items : List String)
  | classObj
  deriving DecidableEq, Repr

/-- Truth value of `isinstance(v, list.__class__)` (line 116): `list.__class__`
is `type`, so this asks whether `v` is itself a class object - which no
status-record field value ever is. -/
def isinstance_list_class : PyVal → Bool
  | PyVal.classObj => true
  | _ => false

/-- `list(v)`, as applied on line 116: materialises a proxy into a plain
list.  (On the other values the branch is never taken; the identity result
stands in for them.) -/
def pyListOf : PyVal → PyVal
  | PyVal.listProxy xs => PyVal.pylist xs
  | PyVal.pylist xs => PyVal.pylist xs
  | v => v

/-- The per-field conversion of line 116:
`list(v) if isinstance(v, list.__class__) else v`. -/
def convertValue (v : PyVal) : PyVal :=
  if isinstance_list_class v then pyListOf v else v

/-- Whether `json.dumps` accepts the value (line 120): strings, integers,
`None` and plain lists serialize; a `Manager` list proxy or a class object
raises `TypeError`. -/
def jsonSerializable : PyVal → Bool
  | PyVal.pstr _ => true
  | PyVal.pint _ => true
  | PyVal.pnone => true
  | PyVal.pylist _ => true
  | PyVal.listProxy _ => false
  | PyVal.classObj => false

/-- The shared status dictionary as seen by the API handler: `manager_pid`
plus the per-service field records (each an association list of field name to
value; the `logs` field holds the `Manager` list proxy). -/
structure ApiStore where
  manager_pid : Nat
  services : List (String × List (String × PyVal))
  deriving DecidableEq, Repr

/-- Outcome of one GET request.  `okJson` carries the serialized snapshot
contents; `serializationError` is `json.dumps` raising `TypeError` after the
headers were already sent, so no JSON body is produced; `notFound` is the 404
branch (lines 121-124). -/
inductive HttpResult where
  | okJson (manager_pid : Nat) (api_url : String)
      (services : List (String × List (String × PyVal)))
  | notFound
  | serializationError
  deriving DecidableEq, Repr

/-- `StatusAPIRequestHandler.do_GET` (lines 106-124): on path `/status`,
build `status_copy` by mapping each service field through the line-116
conversion, then serialize it; on any other path answer not-found. -/
def do_GET (store : ApiStore) (reqPath : String) : HttpResult :=
  if reqPath = "/status" then
    let services_copy := store.services.map
      (fun svc => (svc.1, svc.2.map (fun kv => (kv.1, convertValue kv.2))))
    if services_copy.all (fun svc => svc.2.all (fun kv => jsonSerializable kv.2)) then
      HttpResult.okJson store.manager_pid
        ("http://" ++ API_HOST ++ ":" ++ toString API_PORT ++ "/status")
        services_copy
    else HttpResult.serializationError
  else HttpResult.notFound

/-- A status store holding one registered service, its `logs` field being the
live `Manager` list proxy that `manage_service` installs (line 169). -/
def c6store : ApiStore :=
  { manager_pid := 100,
    services := [("repos/app",
      [("status", PyVal.pstr "running"),
        ("url", PyVal.pstr "https://example.test/app.git"),
        ("branch", PyVal.pstr "main"),
        ("repo_path", PyVal.pstr "repos/app"),
        ("script_to_run", PyVal.pstr "main.py"),
        ("service_manager_pid", PyVal.pint 42),
        ("script_pid", PyVal.pint 43),
        ("logs", PyVal.listProxy ["one line"])])] }

/-- C6, code bug: the snapshot copy is never made.  `isinstance(v,
list.__class__)` tests against `type` and is false for every field value, so
the conversion of line 116 is the identity - in particular the live `logs`
list proxy is passed through uncopied - and `json.dumps` then raises on it:
with any service registered, `GET /status` produces no JSON body at all
(while unknown paths do return not-found, and an empty service map does
serialize). -/
theorem C6_status_copy_never_converts_cex :
    convertValue (PyVal.listProxy ["one line"]) = PyVal.listProxy ["one line"] ∧
    do_GET c6store "/status" = HttpResult.serializationError ∧
    do_GET c6store "/other" = HttpResult.notFound ∧
    do_GET { manager_pid := 100, services := [] } "/status" =
      HttpResult.okJson 100 "http://localhost:8000/status" [] := by
  decide

/-! ## The definitions-file parser (`parse_services_file`, lines 69-95) -/

/-- A parsed service definition (the value stored in the `services` dict,
line 94). -/
structure ServiceDef where
  url : String
  branch : String
  path : String
  deriving DecidableEq, Repr

/-- Python-dict assignment `m[k] = v` on an association list: overwrite in
place if the key exists, else append. -/
def updateAssoc {α : Type} (m : List (String × α)) (k : String) (v : α) :
    List (String × α) :=
  if m.any (fun kv => kv.1 == k) then
    m.map (fun kv => if kv.1 == k then (k, v) else kv)
  else m ++ [(k, v)]

/-- The path component of `urlparse(url)`: everything after the
`scheme://authority` prefix, or the whole string when there is no scheme. -/
def urlPathOf (url : String) : String :=
  match url.splitOn "://" with
  | [_, rest] =>
    match rest.splitOn "/" with
    | [] => ""
    | _ :: segs => String.intercalate "/" segs
  | _ => url

/-- `os.path.basename`: the component after the last slash. -/
def basenameOf (p : String) : String :=
  match (p.splitOn "/").reverse with
  | [] => ""
  | x :: _ => x

/-- The root part of `os.path.splitext`: drop the last dot-extension; a name
consisting only of a leading dot keeps it, as `os.path.splitext` does. -/
def splitextRoot (name : String) : String :=
  match name.splitOn "." with
  | [] => name
  | [_] => name
  | ["", _] => name
  | parts => String.intercalate "." parts.dropLast

/-- `get_repo_name_from_url` (lines 69-73). -/
def get_repo_name_from_url (url : String) : String :=
  let repo_name := splitextRoot (basenameOf (urlPathOf url))
  if repo_name = "" then "unknown_repo" else repo_name

/-- `str.split()` without arguments: split on runs of whitespace. -/
def splitWhitespace (line : String) : List String :=
  (line.split Char.isWhitespace).filter (fun w => w ≠ "")

/-- One iteration of the parsing loop (lines 83-94): strip the line, skip
blanks and comments, read `url [branch] [dir-name]` with defaults, and store
the definition under its repository path (`os.path.join(REPOS_DIR, dir_name)`;
the `abspath` canonicalisation is modelled by the joined relative path). -/
def parseServiceLine (services : List (String × ServiceDef)) (rawLine : String) :
    List (String × ServiceDef) :=
  let line := rawLine.trim
  if line = "" ∨ line.startsWith "#" then services
  else
    match splitWhitespace line with
    | [] => services
    | url :: rest =>
      let branch := match rest with
        | b :: _ => b
        | [] => "main"
      let dir_name := match rest with
        | _ :: d :: _ => d
        | _ => get_repo_name_from_url url
      let repo_path := REPOS_DIR ++ "/" ++ dir_name
      updateAssoc services repo_path
        { url := url, branch := branch, path := repo_path }

/-- `parse_services_file` (lines 75-95).  The argument is `none` when
`SERVICES_FILE` does not exist, in which case the warning is logged and the
empty mapping is returned (lines 78-80); otherwise the file's lines are
folded through `parseServiceLine`. -/
def parse_services_file (file : Option (List String)) :
    List (String × ServiceDef) :=
  match file with
  | none => []
  | some fileLines => fileLines.foldl parseServiceLine []

/-- The desired paths of a parse result (`desired_services.keys()`,
line 278). -/
def servicePaths (services : List (String × ServiceDef)) : List String :=
  services.map Prod.fst

/-! ## The Reconciler (`main`, lines 252-323)

The Reconciler's observable state: `storeKeys` are the keys of
`shared_status["services"]`; `managed` is the `managed_processes` table
(service entries; the `"_api_server"` entry never carries a store key and is
skipped by the health check, so it is kept outside this table); `sups` are
the spawned `manage_service` processes, identified by a spawn counter.
A Supervisor's write of its own store entry (line 171) is asynchronous with
respect to the Reconciler, so it is a separate transition (`registerSup`). -/

/-- One spawned Supervisor process.  `alive` is `Process.is_alive()`;
`registered` says whether it has already performed its line-171 store write;
`ignoresSigterm` is an environment fact: whether the OS process fails to exit
within the 5-second `join` bound after `terminate()` (line 287-288). -/
structure Sup where
  id : Nat
  key : String
  alive : Bool
  registered : Bool
  ignoresSigterm : Bool
  deriving DecidableEq, Repr

/-- The Reconciler-visible system state. -/
structure Sys where
  nextId : Nat
  storeKeys : List String
  managed : List (String × Nat)
  sups : List Sup
  deriving DecidableEq, Repr

/-- Observable actions of a reconciliation cycle.  `forceKill` is part of the
action vocabulary so that its absence can be stated; the program never
performs it. -/
inductive RAct where
  | termSignal (sup : Nat)
  | joinBounded (sup : Nat)
  | forceKill (sup : Nat)
  | delStore (path : String)
  | spawn (path : String) (sup : Nat)
  | respawn (path : String) (sup : Nat)
  deriving DecidableEq, Repr

/-- Effect of `process.terminate()` on supervisor `i`: the process dies
within the join bound unless the environment says it ignores the signal. -/
def terminateSup (i : Nat) (l : List Sup) : List Sup :=
  l.map fun x =>
    if x.id = i ∧ x.ignoresSigterm = false then { x with alive := false } else x

/-- Set difference of path lists, as `set(a) - set(b)` (lines 282, 295). -/
def listDiff (a b : List String) : List String :=
  a.filter (fun x => decide (x ∉ b))

/-- One iteration of the removal loop (lines 282-292): if the path is in the
running table, pop it and - if the process is alive - terminate it and wait
up to the bound; then, if the path is in the store, delete its entry. -/
def stopStep (acc : Sys × List RAct) (p : String) : Sys × List RAct :=
  let s := acc.1
  let evs := acc.2
  let popped :=
    match s.managed.find? (fun kv => kv.1 == p) with
    | some kv =>
      let s' := { s with managed := s.managed.filter (fun kv2 => kv2.1 != p) }
      match s'.sups.find? (fun x : Sup => x.id == kv.2) with
      | some sup =>
        if sup.alive then
          ({ s' with sups := terminateSup kv.2 s'.sups },
            evs ++ [RAct.termSignal kv.2, RAct.joinBounded kv.2])
        else (s', evs)
      | none => (s', evs)
    | none => (s, evs)
  let s2 := popped.1
  let evs2 := popped.2
  if p ∈ s2.storeKeys then
    ({ s2 with storeKeys := s2.storeKeys.filter (fun q => q != p) },
      evs2 ++ [RAct.delStore p])
  else (s2, evs2)

/-- The removal loop over all removed paths (lines 282-292). -/
def stopRemoved (removed : List String) (acc : Sys × List RAct) :
    Sys × List RAct :=
  removed.foldl stopStep acc

/-- One iteration of the start loop (lines 295-301): spawn a fresh Supervisor
for the path and record it in the running table. -/
def startStep (acc : Sys × List RAct) (p : String) : Sys × List RAct :=
  let s := acc.1
  ({ s with
      nextId := s.nextId + 1,
      managed := updateAssoc s.managed p s.nextId,
      sups := s.sups ++
        [{ id := s.nextId,
           key := p,
           alive := true,
           registered := false,
           ignoresSigterm := false }] },
    acc.2 ++ [RAct.spawn p s.nextId])

/-- The start loop over all added paths (lines 295-301). -/
def startNew (added : List String) (acc : Sys × List RAct) : Sys × List RAct :=
  added.foldl startStep acc

/-- One iteration of the health check (lines 304-311): a dead Supervisor is
replaced by a fresh one for the same key, looking its definition up in
`desired_services` - a lookup that raises `KeyError` (crashing the
Reconciler, modelled as `none`) when the path is not desired. -/
def healthStep (desired : List String) (acc : Option (Sys × List RAct))
    (kv : String × Nat) : Option (Sys × List RAct) :=
  match acc with
  | none => none
  | some se =>
    let s := se.1
    let aliveNow :=
      match s.sups.find? (fun x => x.id == kv.2) with
      | some sup => sup.alive
      | none => false
    if aliveNow then some se
    else if kv.1 ∈ desired then
      some ({ s with
          nextId := s.nextId + 1,
          managed := updateAssoc s.managed kv.1 s.nextId,
          sups := s.sups ++
            [{ id := s.nextId,
               key := kv.1,
               alive := true,
               registered := false,
               ignoresSigterm := false }] },
        se.2 ++ [RAct.respawn kv.1 s.nextId])
    else none

/-- The health check over a snapshot of the running table
(`list(managed_processes.items())`, line 304). -/
def healthCheck (desired : List String) (acc : Sys × List RAct) :
    Option (Sys × List RAct) :=
  acc.1.managed.foldl (healthStep desired) (some acc)

/-- `current_paths = set(shared_status["services"].keys())` (line 279): the
actual set the Reconciler diffs against is derived from the Status Store's
keys. -/
def currentPaths (st : Sys) : List String :=
  st.storeKeys

/-- One body of the Reconciler loop (lines 276-311): re-read the desired
paths, diff them against `currentPaths`, stop removed services, start new
ones, then run the health check. -/
def reconcileCycle (desired : List String) (st : Sys) :
    Option (Sys × List RAct) :=
  let current := currentPaths st
  let removed := listDiff current desired
  let added := listDiff desired current
  healthCheck desired (startNew added (stopRemoved removed (st, [])))

/-- Modelled from the spec: the reconciliation cycle as §3 of the
specification describes it, deriving the actual set "from its own table of
spawned Supervisors, never from the Status Store directly" - identical to
`reconcileCycle` except that the diffs are computed against the running
table's keys. -/
def reconcileSpecCycle (desired : List String) (st : Sys) :
    Option (Sys × List RAct) :=
  let current := st.managed.map Prod.fst
  let removed := listDiff current desired
  let added := listDiff desired current
  healthCheck desired (startNew added (stopRemoved removed (st, [])))

/-- The store write `shared_status_dict[repo_path] = service_status`
performed by a newly spawned Supervisor (line 171), as the Reconciler's store
sees it: the Supervisor's key appears among the store keys.  A Supervisor
registers once, while alive. -/
def registerSup (i : Nat) (st : Sys) : Sys :=
  match st.sups.find? (fun x => x.id == i) with
  | some sup =>
    if sup.alive = true ∧ sup.registered = false then
      { st with
          sups := st.sups.map (fun x =>
            if x.id == i then { x with registered := true } else x),
          storeKeys := if sup.key ∈ st.storeKeys then st.storeKeys
            else st.storeKeys ++ [sup.key] }
    else st
  | none => st

/-- Interleaving of the Reconciler and the Supervisors' registration
writes. -/
inductive SysStep : Sys → Sys → Prop where
  | reconcileStep (desired : List String) (st st' : Sys) (evs : List RAct) :
      reconcileCycle desired st = some (st', evs) → SysStep st st'
  | registerStep (i : Nat) (st : Sys) : SysStep st (registerSup i st)

/-- The initial system state: empty store, empty table, nothing spawned. -/
def initSys : Sys := { nextId := 0, storeKeys := [], managed := [], sups := [] }

/-- States the system can reach from start-up. -/
inductive ReachableSys : Sys → Prop where
  | init : ReachableSys initSys
  | step {st st' : Sys} : ReachableSys st → SysStep st st' → ReachableSys st'

/-- The invariant asserted by the specification (§3, Status Store): every key
present in the Store is held by exactly one live Supervisor, and no two live
Supervisors ever hold the same key. -/
def keyInvariant (st : Sys) : Prop :=
  (∀ k ∈ st.storeKeys, ∃ x ∈ st.sups, x.alive = true ∧ x.key = k ∧
    ∀ y ∈ st.sups, y.alive = true → y.key = k → y = x) ∧
  (∀ x ∈ st.sups, ∀ y ∈ st.sups, x.alive = true → y.alive = true →
    x.key = y.key → x = y)

/-! ## Claims about the Reconciler

`Sup` values below are written with the anonymous constructor:
`⟨id, key, alive, registered, ignoresSigterm⟩`. -/

/-- A state in which a Supervisor for `repos/app` has been spawned (it is in
the running table and alive) but has not yet performed its store write: the
Status Store lags the table by one cycle, as happens during startup. -/
def lagSys : Sys :=
  { nextId := 1, storeKeys := [], managed := [("repos/app", 0)],
    sups := [⟨0, "repos/app", true, false, false⟩] }

/-- C1 counterexample: the Reconciler does not compute the actual set from
its own table of spawned Supervisors - it computes it from the Status
Store's keys (line 279).  In the lag state the spec-described cycle
(`reconcileSpecCycle`) leaves the system unchanged, while the code's cycle
sees an empty actual set and spawns a second Supervisor for a path already
present in its own running table. -/
theorem C1_actual_set_from_store_cex :
    reconcileSpecCycle ["repos/app"] lagSys = some (lagSys, []) ∧
    reconcileCycle ["repos/app"] lagSys =
      some ({ nextId := 2,
              storeKeys := [],
              managed := [("repos/app", 1)],
              sups := [⟨0, "repos/app", true, false, false⟩,
                ⟨1, "repos/app", true, false, false⟩] },
        [RAct.spawn "repos/app" 1]) ∧
    reconcileCycle ["repos/app"] lagSys ≠
      reconcileSpecCycle ["repos/app"] lagSys := by
  decide

/-- The state after one reconciliation cycle from startup with desired path
`repos/app`: one Supervisor spawned, not yet registered. -/
def dupSysA : Sys :=
  { nextId := 1, storeKeys := [], managed := [("repos/app", 0)],
    sups := [⟨0, "repos/app", true, false, false⟩] }

/-- The state after a second cycle run before the first Supervisor's store
write: a second live Supervisor now holds the same key. -/
def dupSysB : Sys :=
  { nextId := 2, storeKeys := [], managed := [("repos/app", 1)],
    sups := [⟨0, "repos/app", true, false, false⟩,
      ⟨1, "repos/app", true, false, false⟩] }

/-- C2 counterexample: the key-uniqueness invariant does not hold at all
reachable states.  Two reconciliation cycles with the same desired set, both
run before the first spawned Supervisor performs its store write, reach a
state with two live Supervisors holding the same key: the second cycle
starts a second Supervisor for a key whose Supervisor is still alive,
because the actual set is read from the lagging Store. -/
theorem C2_duplicate_supervisor_cex :
    ReachableSys dupSysB ∧ ¬ keyInvariant dupSysB := by
  constructor
  · exact ReachableSys.step
      (ReachableSys.step ReachableSys.init
        (SysStep.reconcileStep ["repos/app"] initSys dupSysA
          [RAct.spawn "repos/app" 0] (by decide)))
      (SysStep.reconcileStep ["repos/app"] dupSysA dupSysB
        [RAct.spawn "repos/app" 1] (by decide))
  · intro hinv
    have h := hinv.2 ⟨0, "repos/app", true, false, false⟩ (by decide)
      ⟨1, "repos/app", true, false, false⟩ (by decide) rfl rfl rfl
    exact absurd h (by decide)

/-- A state with one registered, alive Supervisor that does exit within the
join bound when terminated. -/
def stubbornSys : Sys :=
  { nextId := 1, storeKeys := ["repos/app"], managed := [("repos/app", 0)],
    sups := [⟨0, "repos/app", true, true, false⟩] }

/-- The same state, except that the Supervisor's OS process does not exit
within the 5-second join bound after `terminate()`. -/
def stubbornSys2 : Sys :=
  { nextId := 1, storeKeys := ["repos/app"], managed := [("repos/app", 0)],
    sups := [⟨0, "repos/app", true, true, true⟩] }

/-- C7 counterexample: the removal path never force-terminates.  When the
service is removed from the definitions file but its Supervisor is still
alive after the bounded join (lines 287-288 call `terminate()` then
`join(timeout=5)` and nothing else), the Reconciler still deletes the Store
entry and drops the table entry, issues no kill, and leaves the Supervisor
process alive. -/
theorem C7_no_force_terminate_cex :
    reconcileCycle [] stubbornSys2 =
      some ({ nextId := 1,
              storeKeys := [],
              managed := [],
              sups := [⟨0, "repos/app", true, true, true⟩] },
        [RAct.termSignal 0, RAct.joinBounded 0, RAct.delStore "repos/app"]) ∧
    (∀ j, RAct.forceKill j ∉
      [RAct.termSignal 0, RAct.joinBounded 0, RAct.delStore "repos/app"]) ∧
    (⟨0, "repos/app", true, true, true⟩ : Sup).alive = true := by
  refine ⟨by decide, ?_, by decide⟩
  intro j
  simp

/-- C7 amended: for a service removed from the definitions file, within one
reconciliation cycle the Reconciler signals its Supervisor to terminate,
waits the bounded join, deletes its Status Store entry and drops it from the
running table - unconditionally, with no force-termination step if the
Supervisor outlives the bound (and hence no separate guarantee about the
worker the Supervisor owns). -/
theorem C7_removed_service_stopped (st : Sys) (p : String) (i : Nat) (sup : Sup)
    (h1 : st.storeKeys = [p]) (h2 : st.managed = [(p, i)])
    (h3 : st.sups.find? (fun x : Sup => x.id == i) = some sup)
    (h4 : sup.alive = true) :
    reconcileCycle [] st =
      some ({ st with
          storeKeys := [],
          managed := [],
          sups := terminateSup i st.sups },
        [RAct.termSignal i, RAct.joinBounded i, RAct.delStore p]) ∧
    ∀ j, RAct.forceKill j ∉
      [RAct.termSignal i, RAct.joinBounded i, RAct.delStore p] := by
  constructor
  · simp [reconcileCycle, currentPaths, listDiff, stopRemoved, stopStep,
      startNew, healthCheck, h1, h2, h3, h4]
  · intro j
    simp

theorem C7_removed_service_stopped_witness :
    stubbornSys.storeKeys = ["repos/app"] ∧
    stubbornSys.managed = [("repos/app", 0)] ∧
    stubbornSys.sups.find? (fun x : Sup => x.id == 0) =
      some ⟨0, "repos/app", true, true, false⟩ ∧
    (reconcileCycle [] stubbornSys =
      some ({ stubbornSys with
          storeKeys := [],
          managed := [],
          sups := terminateSup 0 stubbornSys.sups },
        [RAct.termSignal 0, RAct.joinBounded 0, RAct.delStore "repos/app"]) ∧
      ∀ j, RAct.forceKill j ∉
        [RAct.termSignal 0, RAct.joinBounded 0, RAct.delStore "repos/app"]) :=
  ⟨by decide, by decide, by decide,
    C7_removed_service_stopped stubbornSys "repos/app" 0
      ⟨0, "repos/app", true, true, false⟩
      (by decide) (by decide) (by decide) (by decide)⟩

/-! ### Observables of reconciliation actions -/

/-- Keys of the `spawn` events in an action list. -/
def spawnKeys (evs : List RAct) : List String :=
  evs.filterMap fun a =>
    match a with
    | RAct.spawn q _ => some q
    | _ => none

/-- Paths of the `delStore` events in an action list. -/
def delKeys (evs : List RAct) : List String :=
  evs.filterMap fun a =>
    match a with
    | RAct.delStore q => some q
    | _ => none

theorem spawnKeys_append (a b : List RAct) :
    spawnKeys (a ++ b) = spawnKeys a ++ spawnKeys b :=
  List.filterMap_append a b _

theorem delKeys_append (a b : List RAct) :
    delKeys (a ++ b) = delKeys a ++ delKeys b :=
  List.filterMap_append a b _

theorem delStore_mem_of_mem_delKeys (evs : List RAct) (p : String)
    (h : p ∈ delKeys evs) : RAct.delStore p ∈ evs := by
  obtain ⟨a, ha, hm⟩ := List.mem_filterMap.mp h
  cases a <;> simp_all

/-! ### Uniqueness of `find?` results under no-duplicate hypotheses -/

theorem find?_key_unique {α : Type} (m : List (String × α)) (p : String)
    (kv : String × α) (hnd : (m.map Prod.fst).Nodup) (hmem : kv ∈ m)
    (hkey : kv.1 = p) : m.find? (fun e => e.1 == p) = some kv := by
  induction m with
  | nil => cases hmem
  | cons e rest ih =>
    simp only [List.map_cons, List.nodup_cons] at hnd
    rcases List.mem_cons.mp hmem with heq | hmem
    · subst heq
      rw [List.find?_cons_of_pos]
      simp [hkey]
    · have hne : e.1 ≠ p := by
        intro hep
        apply hnd.1
        have hin := List.mem_map_of_mem Prod.fst hmem
        rw [hkey] at hin
        rw [hep]
        exact hin
      rw [List.find?_cons_of_neg]
      · exact ih hnd.2 hmem
      · simp [hne]

theorem find?_id_unique (l : List Sup) (i : Nat) (x : Sup)
    (hnd : (l.map Sup.id).Nodup) (hmem : x ∈ l) (hid : x.id = i) :
    l.find? (fun y : Sup => y.id == i) = some x := by
  induction l with
  | nil => cases hmem
  | cons e rest ih =>
    simp only [List.map_cons, List.nodup_cons] at hnd
    rcases List.mem_cons.mp hmem with heq | hmem
    · subst heq
      rw [List.find?_cons_of_pos]
      simp [hid]
    · have hne : e.id ≠ i := by
        intro hep
        apply hnd.1
        have hin := List.mem_map_of_mem Sup.id hmem
        rw [hid] at hin
        rw [hep]
        exact hin
      rw [List.find?_cons_of_neg]
      · exact ih hnd.2 hmem
      · simp [hne]

/-! ### Properties of `terminateSup` -/

theorem terminateSup_ids (i : Nat) (l : List Sup) :
    (terminateSup i l).map Sup.id = l.map Sup.id := by
  unfold terminateSup
  rw [List.map_map]
  apply List.map_congr_left
  intro x _
  by_cases h : x.id = i ∧ x.ignoresSigterm = false <;> simp [Function.comp, h]

theorem mem_terminateSup_of_id_ne (i : Nat) (l : List Sup) (x : Sup)
    (hmem : x ∈ l) (hne : x.id ≠ i) : x ∈ terminateSup i l := by
  unfold terminateSup
  apply List.mem_map.mpr
  refine ⟨x, hmem, ?_⟩
  exact if_neg (fun h => hne h.1)

/-! ### A helper about filters that remove nothing -/

theorem filter_bne_self (l : List String) (p : String) (h : p ∉ l) :
    l.filter (fun q => q != p) = l := by
  apply List.filter_eq_self.mpr
  intro q hq
  have : q ≠ p := fun e => h (e ▸ hq)
  simp [this]

theorem filter_keyne_of_find?_none {α : Type} (m : List (String × α)) (p : String)
    (h : m.find? (fun e => e.1 == p) = none) :
    m.filter (fun e => e.1 != p) = m := by
  apply List.filter_eq_self.mpr
  intro kv hkv
  have := List.find?_eq_none.mp h kv hkv
  simpa [bne] using this

/-! ### One step of the removal loop, decomposed -/

theorem stopStep_parts (acc : Sys × List RAct) (p : String) :
    (stopStep acc p).1.storeKeys = acc.1.storeKeys.filter (fun q => q != p) ∧
    (stopStep acc p).1.nextId = acc.1.nextId ∧
    (stopStep acc p).1.managed = acc.1.managed.filter (fun kv => kv.1 != p) ∧
    ((stopStep acc p).1.sups = acc.1.sups ∨
      ∃ kvp, acc.1.managed.find? (fun e => e.1 == p) = some kvp ∧
        (stopStep acc p).1.sups = terminateSup kvp.2 acc.1.sups) ∧
    ∃ e, (stopStep acc p).2 = acc.2 ++ e ∧ spawnKeys e = [] ∧
      delKeys e = (if p ∈ acc.1.storeKeys then [p] else []) := by
  obtain ⟨s, evs⟩ := acc
  by_cases hs : p ∈ s.storeKeys <;>
    rcases hf : s.managed.find? (fun e => e.1 == p) with _ | kv
  · refine ⟨?_, ?_, ?_, ?_, ⟨[RAct.delStore p], ?_, ?_, ?_⟩⟩ <;>
      simp [stopStep, spawnKeys, delKeys, hf, hs, filter_keyne_of_find?_none s.managed p hf]
  · rcases hg : s.sups.find? (fun y : Sup => y.id == kv.2) with _ | sup
    · refine ⟨?_, ?_, ?_, ?_, ⟨[RAct.delStore p], ?_, ?_, ?_⟩⟩ <;>
        simp [stopStep, spawnKeys, delKeys, hf, hg, hs]
    · by_cases ha : sup.alive
      · refine ⟨?_, ?_, ?_, ?_,
          ⟨[RAct.termSignal kv.2, RAct.joinBounded kv.2, RAct.delStore p],
            ?_, ?_, ?_⟩⟩ <;>
          simp [stopStep, spawnKeys, delKeys, hf, hg, ha, hs]
      · refine ⟨?_, ?_, ?_, ?_, ⟨[RAct.delStore p], ?_, ?_, ?_⟩⟩ <;>
          simp [stopStep, spawnKeys, delKeys, hf, hg, ha, hs]
  · refine ⟨?_, ?_, ?_, ?_, ⟨[], ?_, ?_, ?_⟩⟩ <;>
      simp [stopStep, spawnKeys, delKeys, hf, hs,
        filter_keyne_of_find?_none s.managed p hf,
        filter_bne_self s.storeKeys p hs]
  · rcases hg : s.sups.find? (fun y : Sup => y.id == kv.2) with _ | sup
    · refine ⟨?_, ?_, ?_, ?_, ⟨[], ?_, ?_, ?_⟩⟩ <;>
        simp [stopStep, spawnKeys, delKeys, hf, hg, hs,
          filter_bne_self s.storeKeys p hs]
    · by_cases ha : sup.alive
      · refine ⟨?_, ?_, ?_, ?_,
          ⟨[RAct.termSignal kv.2, RAct.joinBounded kv.2], ?_, ?_, ?_⟩⟩ <;>
          simp [stopStep, spawnKeys, delKeys, hf, hg, ha, hs,
            filter_bne_self s.storeKeys p hs]
      · refine ⟨?_, ?_, ?_, ?_, ⟨[], ?_, ?_, ?_⟩⟩ <;>
          simp [stopStep, spawnKeys, delKeys, hf, hg, ha, hs,
          filter_bne_self s.storeKeys p hs]

/-! ### The removal loop over a whole removed set -/

theorem stopRemoved_cons (p : String) (ps : List String) (acc : Sys × List RAct) :
    stopRemoved (p :: ps) acc = stopRemoved ps (stopStep acc p) := rfl

theorem stopRemoved_storeKeys (ps : List String) : ∀ acc : Sys × List RAct,
    (stopRemoved ps acc).1.storeKeys =
      acc.1.storeKeys.filter (fun q => decide (q ∉ ps)) := by
  induction ps with
  | nil =>
    intro acc
    simp [stopRemoved]
  | cons p ps ih =>
    intro acc
    rw [stopRemoved_cons, ih, (stopStep_parts acc p).1, List.filter_filter]
    apply List.filter_congr
    intro q _
    by_cases h : q = p <;> by_cases h2 : q ∈ ps <;> simp [h, h2]

theorem stopRemoved_nextId (ps : List String) : ∀ acc : Sys × List RAct,
    (stopRemoved ps acc).1.nextId = acc.1.nextId := by
  induction ps with
  | nil => intro acc; rfl
  | cons p ps ih =>
    intro acc
    rw [stopRemoved_cons, ih, (stopStep_parts acc p).2.1]

theorem stopRemoved_managed (ps : List String) : ∀ acc : Sys × List RAct,
    (stopRemoved ps acc).1.managed =
      acc.1.managed.filter (fun kv => decide (kv.1 ∉ ps)) := by
  induction ps with
  | nil =>
    intro acc
    simp [stopRemoved]
  | cons p ps ih =>
    intro acc
    rw [stopRemoved_cons, ih, (stopStep_parts acc p).2.2.1, List.filter_filter]
    apply List.filter_congr
    intro kv _
    by_cases h : kv.1 = p <;> by_cases h2 : kv.1 ∈ ps <;> simp [h, h2]

theorem stopRemoved_sups_ids (ps : List String) : ∀ acc : Sys × List RAct,
    ((stopRemoved ps acc).1.sups).map Sup.id = (acc.1.sups).map Sup.id := by
  induction ps with
  | nil => intro acc; rfl
  | cons p ps ih =>
    intro acc
    rw [stopRemoved_cons, ih]
    rcases (stopStep_parts acc p).2.2.2.1 with hsame | ⟨kvp, _, hterm⟩
    · rw [hsame]
    · rw [hterm, terminateSup_ids]

theorem stopRemoved_evs (ps : List String) : ∀ acc : Sys × List RAct,
    ∃ e, (stopRemoved ps acc).2 = acc.2 ++ e ∧ spawnKeys e = [] := by
  induction ps with
  | nil =>
    intro acc
    exact ⟨[], by simp [stopRemoved], rfl⟩
  | cons p ps ih =>
    intro acc
    obtain ⟨e1, he1, hs1⟩ := (stopStep_parts acc p).2.2.2.2
    obtain ⟨e2, he2, hs2⟩ := ih (stopStep acc p)
    refine ⟨e1 ++ e2, ?_, ?_⟩
    · rw [stopRemoved_cons, he2, he1, List.append_assoc]
    · rw [spawnKeys_append, hs1.1, hs2]
      rfl

theorem stopRemoved_delKeys (ps : List String) : ∀ acc : Sys × List RAct,
    ps.Nodup → (∀ q ∈ ps, q ∈ acc.1.storeKeys) →
    delKeys (stopRemoved ps acc).2 = delKeys acc.2 ++ ps := by
  induction ps with
  | nil =>
    intro acc _ _
    simp [stopRemoved]
  | cons p ps ih =>
    intro acc hnd hsub
    obtain ⟨e, he, _, hdl⟩ := (stopStep_parts acc p).2.2.2.2
    have hnd' := List.nodup_cons.mp hnd
    rw [stopRemoved_cons, ih (stopStep acc p) hnd'.2 ?_, he, delKeys_append, hdl,
      if_pos (hsub p (List.mem_cons_self p ps))]
    · simp
    · intro q hq
      rw [(stopStep_parts acc p).1, List.mem_filter]
      refine ⟨hsub q (List.mem_cons_of_mem p hq), ?_⟩
      have : q ≠ p := by
        rintro rfl
        exact hnd'.1 hq
      simp [this]

/-! ### The start loop over a whole added set -/

/-- The Supervisors freshly spawned for the given paths, ids counting from
`n`. -/
def freshSups : List String → Nat → List Sup
  | [], _ => []
  | q :: rest, n => ⟨n, q, true, false, false⟩ :: freshSups rest (n + 1)

theorem startNew_cons (p : String) (ps : List String) (acc : Sys × List RAct) :
    startNew (p :: ps) acc = startNew ps (startStep acc p) := rfl

theorem startNew_parts (ps : List String) : ∀ acc : Sys × List RAct,
    (startNew ps acc).1.sups = acc.1.sups ++ freshSups ps acc.1.nextId ∧
    (startNew ps acc).1.nextId = acc.1.nextId + ps.length ∧
    (startNew ps acc).1.storeKeys = acc.1.storeKeys ∧
    spawnKeys (startNew ps acc).2 = spawnKeys acc.2 ++ ps ∧
    delKeys (startNew ps acc).2 = delKeys acc.2 := by
  induction ps with
  | nil =>
    intro acc
    refine ⟨?_, ?_, rfl, ?_, rfl⟩ <;> simp [startNew, freshSups]
  | cons q rest ih =>
    intro acc
    obtain ⟨h1, h2, h3, h4, h5⟩ := ih (startStep acc q)
    rw [startNew_cons]
    refine ⟨?_, ?_, ?_, ?_, ?_⟩
    · rw [h1]
      show acc.1.sups ++ [⟨acc.1.nextId, q, true, false, false⟩] ++
        freshSups rest (acc.1.nextId + 1) = _
      rw [List.append_assoc]
      rfl
    · rw [h2]
      show acc.1.nextId + 1 + rest.length = _
      simp [List.length_cons]
      omega
    · exact h3
    · rw [h4]
      show spawnKeys (acc.2 ++ [RAct.spawn q acc.1.nextId]) ++ rest = _
      rw [spawnKeys_append]
      simp [spawnKeys, List.append_assoc]
    · rw [h5]
      show delKeys (acc.2 ++ [RAct.spawn q acc.1.nextId]) = _
      rw [delKeys_append]
      simp [delKeys]

theorem mem_freshSups (ps : List String) : ∀ (n : Nat) (x : Sup),
    x ∈ freshSups ps n → x.key ∈ ps ∧ n ≤ x.id ∧ x.alive = true := by
  induction ps with
  | nil =>
    intro n x h
    cases h
  | cons q rest ih =>
    intro n x h
    rcases List.mem_cons.mp h with heq | h
    · subst heq
      exact ⟨List.mem_cons_self q rest, Nat.le_refl n, rfl⟩
    · obtain ⟨hk, hn, ha⟩ := ih (n + 1) x h
      exact ⟨List.mem_cons_of_mem q hk, by omega, ha⟩

/-! ### The health check -/

theorem health_fold_none (desired : List String) (m : List (String × Nat)) :
    m.foldl (healthStep desired) none = none := by
  induction m with
  | nil => rfl
  | cons kv rest ih =>
    rw [List.foldl_cons]
    exact ih

theorem health_fold_id (desired : List String) (m : List (String × Nat))
    (acc : Sys × List RAct)
    (h : ∀ kv ∈ m, ∃ x ∈ acc.1.sups, x.id = kv.2 ∧ x.alive = true)
    (hids : (acc.1.sups.map Sup.id).Nodup) :
    m.foldl (healthStep desired) (some acc) = some acc := by
  induction m with
  | nil => rfl
  | cons kv rest ih =>
    obtain ⟨x, hx, hxid, hxal⟩ := h kv (List.mem_cons_self kv rest)
    have hfind := find?_id_unique acc.1.sups kv.2 x hids hx hxid
    have hstep : healthStep desired (some acc) kv = some acc := by
      simp [healthStep, hfind, hxal]
    rw [List.foldl_cons, hstep]
    exact ih (fun kv2 h2 => h kv2 (List.mem_cons_of_mem kv h2))

theorem healthStep_cases (desired : List String) (acc : Sys × List RAct)
    (kv : String × Nat) (res : Sys × List RAct)
    (h : healthStep desired (some acc) kv = some res) :
    res = acc ∨ res.2 = acc.2 ++ [RAct.respawn kv.1 acc.1.nextId] := by
  simp only [healthStep] at h
  by_cases hal : (match acc.1.sups.find? (fun x : Sup => x.id == kv.2) with
      | some sup => sup.alive
      | none => false) = true
  · rw [if_pos hal] at h
    cases h
    exact Or.inl rfl
  · rw [if_neg hal] at h
    by_cases hmem : kv.1 ∈ desired
    · rw [if_pos hmem] at h
      cases h
      exact Or.inr rfl
    · rw [if_neg hmem] at h
      cases h

theorem health_fold_keys (desired : List String) (m : List (String × Nat)) :
    ∀ acc res : Sys × List RAct,
      m.foldl (healthStep desired) (some acc) = some res →
      spawnKeys res.2 = spawnKeys acc.2 ∧ delKeys res.2 = delKeys acc.2 := by
  induction m with
  | nil =>
    intro acc res h
    cases h
    exact ⟨rfl, rfl⟩
  | cons kv rest ih =>
    intro acc res h
    rw [List.foldl_cons] at h
    rcases hstep : healthStep desired (some acc) kv with _ | acc2
    · rw [hstep, health_fold_none] at h
      cases h
    · rw [hstep] at h
      obtain ⟨h1, h2⟩ := ih acc2 res h
      have hrel : spawnKeys acc2.2 = spawnKeys acc.2 ∧
          delKeys acc2.2 = delKeys acc.2 := by
        rcases healthStep_cases desired acc kv acc2 hstep with heq | happ
        · rw [heq]
          exact ⟨rfl, rfl⟩
        · rw [happ, spawnKeys_append, delKeys_append]
          constructor
          · simp [spawnKeys]
          · simp [delKeys]
      exact ⟨h1.trans hrel.1, h2.trans hrel.2⟩

/-! ### The reconciliation invariant in the absence of store lag -/

theorem reconcileCycle_decomp (desired : List String) (st : Sys) :
    reconcileCycle desired st =
      healthCheck desired (startNew (listDiff desired st.storeKeys)
        (stopRemoved (listDiff st.storeKeys desired) (st, []))) := rfl

/-- Every entry of the running table refers to a live Supervisor holding
exactly that entry's key. -/
def managedWired (st : Sys) : Prop :=
  ∀ kv ∈ st.managed, ∃ x ∈ st.sups, x.key = kv.1 ∧ x.id = kv.2 ∧ x.alive = true

/-- Book-keeping facts the Reconciler's own data maintains: the running table
is wired to live Supervisors, its keys and values carry no duplicates, spawned
Supervisors have pairwise distinct ids, and the spawn counter bounds them. -/
def recInv (st : Sys) : Prop :=
  managedWired st ∧ (st.managed.map Prod.fst).Nodup ∧
  (st.managed.map Prod.snd).Nodup ∧ (st.sups.map Sup.id).Nodup ∧
  ∀ x ∈ st.sups, x.id < st.nextId

theorem stopStep_recInv (acc : Sys × List RAct) (p : String)
    (h : recInv acc.1) : recInv (stopStep acc p).1 := by
  obtain ⟨hw, hk, hv, hi, hb⟩ := h
  obtain ⟨hsk, hnx, hmg, hsups, _⟩ := stopStep_parts acc p
  have hids_eq : ((stopStep acc p).1.sups).map Sup.id = (acc.1.sups).map Sup.id := by
    rcases hsups with hsame | ⟨kvp, _, hterm⟩
    · rw [hsame]
    · rw [hterm, terminateSup_ids]
  refine ⟨?_, ?_, ?_, ?_, ?_⟩
  · intro kv hkv
    rw [hmg] at hkv
    have hkv' := List.mem_of_mem_filter hkv
    have hkne : kv.1 ≠ p := by
      have := List.of_mem_filter hkv
      simpa using this
    obtain ⟨x, hx, hxkey, hxid, hxal⟩ := hw kv hkv'
    rcases hsups with hsame | ⟨kvp, hfind, hterm⟩
    · rw [hsame]
      exact ⟨x, hx, hxkey, hxid, hxal⟩
    · have hkvpmem : kvp ∈ acc.1.managed := List.mem_of_find?_eq_some hfind
      have hkvpkey : kvp.1 = p := by
        have := List.find?_some hfind
        simpa using this
      have hkvne : kv ≠ kvp := by
        intro heq
        exact hkne (heq ▸ hkvpkey)
      have hvalne : kv.2 ≠ kvp.2 := by
        intro heq
        exact hkvne (List.inj_on_of_nodup_map hv hkv' hkvpmem heq)
      rw [hterm]
      refine ⟨x, mem_terminateSup_of_id_ne kvp.2 acc.1.sups x hx ?_, hxkey, hxid, hxal⟩
      rw [hxid]
      exact hvalne
  · rw [hmg]
    exact hk.sublist (List.Sublist.map Prod.fst (List.filter_sublist acc.1.managed))
  · rw [hmg]
    exact hv.sublist (List.Sublist.map Prod.snd (List.filter_sublist acc.1.managed))
  · rw [hids_eq]
    exact hi
  · intro x hx
    rw [hnx]
    have hmem : x.id ∈ ((stopStep acc p).1.sups).map Sup.id :=
      List.mem_map_of_mem Sup.id hx
    rw [hids_eq] at hmem
    obtain ⟨y, hy, hyid⟩ := List.mem_map.mp hmem
    rw [← hyid]
    exact hb y hy

theorem stopRemoved_recInv (ps : List String) : ∀ acc : Sys × List RAct,
    recInv acc.1 → recInv (stopRemoved ps acc).1 := by
  induction ps with
  | nil =>
    intro acc h
    exact h
  | cons p ps ih =>
    intro acc h
    rw [stopRemoved_cons]
    exact ih (stopStep acc p) (stopStep_recInv acc p h)

theorem nodup_map_update (m : List (String × Nat)) (p : String) (n : Nat)
    (hk : (m.map Prod.fst).Nodup) (hv : (m.map Prod.snd).Nodup)
    (hlt : ∀ kv ∈ m, kv.2 < n) :
    ((m.map fun kv => if kv.1 == p then (p, n) else kv).map Prod.snd).Nodup := by
  induction m with
  | nil => simp
  | cons kv rest ih =>
    simp only [List.map_cons, List.nodup_cons] at hk hv ⊢
    by_cases h : kv.1 == p
    · have hrest : rest.map (fun kv => if kv.1 == p then (p, n) else kv) = rest := by
        have hid : rest.map (fun kv => if kv.1 == p then (p, n) else kv) =
            rest.map id := by
          apply List.map_congr_left
          intro e he
          simp only [id]
          rw [if_neg]
          intro hep
          apply hk.1
          have : e.1 = kv.1 := by
            have h1 : e.1 = p := by simpa using hep
            have h2 : kv.1 = p := by simpa using h
            rw [h1, h2]
          rw [← this]
          exact List.mem_map_of_mem Prod.fst he
        rw [hid, List.map_id]
      rw [if_pos h, hrest]
      refine ⟨?_, hv.2⟩
      intro hmem
      obtain ⟨e, he, heq⟩ := List.mem_map.mp hmem
      have := hlt e (List.mem_cons_of_mem kv he)
      omega
    · rw [if_neg h]
      refine ⟨?_, ih hk.2 hv.2 (fun e he => hlt e (List.mem_cons_of_mem kv he))⟩
      intro hmem
      obtain ⟨e, he, heq⟩ := List.mem_map.mp hmem
      obtain ⟨e0, he0, heq0⟩ := List.mem_map.mp he
      by_cases h0 : e0.1 == p
      · rw [if_pos h0] at heq0
        subst heq0
        simp only at heq
        have := hlt kv (List.mem_cons_self kv rest)
        omega
      · rw [if_neg h0] at heq0
        subst heq0
        apply hv.1
        rw [← heq]
        exact List.mem_map_of_mem Prod.snd he0

theorem startStep_recInv (acc : Sys × List RAct) (p : String)
    (h : recInv acc.1) : recInv (startStep acc p).1 := by
  obtain ⟨hw, hk, hv, hi, hb⟩ := h
  have hlt : ∀ kv ∈ acc.1.managed, kv.2 < acc.1.nextId := by
    intro kv hkv
    obtain ⟨x, hx, _, hxid, _⟩ := hw kv hkv
    rw [← hxid]
    exact hb x hx
  have hsups : (startStep acc p).1.sups =
      acc.1.sups ++ [⟨acc.1.nextId, p, true, false, false⟩] := rfl
  have hnid : (startStep acc p).1.nextId = acc.1.nextId + 1 := rfl
  have hmg : (startStep acc p).1.managed =
      updateAssoc acc.1.managed p acc.1.nextId := rfl
  refine ⟨?_, ?_, ?_, ?_, ?_⟩
  · intro kv hkv
    rw [hmg, updateAssoc] at hkv
    rw [hsups]
    by_cases hany : acc.1.managed.any (fun e => e.1 == p)
    · rw [if_pos hany] at hkv
      obtain ⟨e, he, heq⟩ := List.mem_map.mp hkv
      by_cases h0 : e.1 == p
      · rw [if_pos h0] at heq
        subst heq
        exact ⟨⟨acc.1.nextId, p, true, false, false⟩,
          List.mem_append_right _ (List.mem_singleton.mpr rfl), rfl, rfl, rfl⟩
      · rw [if_neg h0] at heq
        subst heq
        obtain ⟨x, hx, hxk, hxi, hxa⟩ := hw e he
        exact ⟨x, List.mem_append_left _ hx, hxk, hxi, hxa⟩
    · rw [if_neg hany] at hkv
      rcases List.mem_append.mp hkv with he | he
      · obtain ⟨x, hx, hxk, hxi, hxa⟩ := hw kv he
        exact ⟨x, List.mem_append_left _ hx, hxk, hxi, hxa⟩
      · rw [List.mem_singleton.mp he]
        exact ⟨⟨acc.1.nextId, p, true, false, false⟩,
          List.mem_append_right _ (List.mem_singleton.mpr rfl), rfl, rfl, rfl⟩
  · rw [hmg, updateAssoc]
    by_cases hany : acc.1.managed.any (fun e => e.1 == p)
    · rw [if_pos hany]
      have : (acc.1.managed.map fun kv =>
          if kv.1 == p then (p, acc.1.nextId) else kv).map Prod.fst
          = acc.1.managed.map Prod.fst := by
        rw [List.map_map]
        apply List.map_congr_left
        intro e _
        by_cases h0 : e.1 == p
        · have : e.1 = p := by simpa using h0
          simp [Function.comp, h0, this]
        · simp [Function.comp, h0]
      rw [this]
      exact hk
    · rw [if_neg hany]
      rw [List.map_append]
      apply List.Nodup.append hk (by simp)
      intro a ha hb2
      simp only [List.map_cons, List.map_nil, List.mem_singleton] at hb2
      subst hb2
      rw [List.any_eq_true] at hany
      obtain ⟨e, he, heq⟩ := List.mem_map.mp ha
      exact hany ⟨e, he, by simp [heq]⟩
  · rw [hmg, updateAssoc]
    by_cases hany : acc.1.managed.any (fun e => e.1 == p)
    · rw [if_pos hany]
      exact nodup_map_update acc.1.managed p acc.1.nextId hk hv hlt
    · rw [if_neg hany]
      rw [List.map_append]
      apply List.Nodup.append hv (by simp)
      intro a ha hb2
      simp only [List.map_cons, List.map_nil, List.mem_singleton] at hb2
      subst hb2
      obtain ⟨e, he, heq⟩ := List.mem_map.mp ha
      have := hlt e he
      omega
  · rw [hsups, List.map_append]
    apply List.Nodup.append hi (by simp)
    intro a ha hb2
    simp only [List.map_cons, List.map_nil, List.mem_singleton] at hb2
    subst hb2
    obtain ⟨x, hx, hxid⟩ := List.mem_map.mp ha
    have := hb x hx
    omega
  · intro x hx
    rw [hnid]
    rw [hsups] at hx
    rcases List.mem_append.mp hx with he | he
    · have := hb x he
      omega
    · rw [List.mem_singleton.mp he]
      show acc.1.nextId < acc.1.nextId + 1
      omega

theorem startNew_recInv (ps : List String) : ∀ acc : Sys × List RAct,
    recInv acc.1 → recInv (startNew ps acc).1 := by
  induction ps with
  | nil =>
    intro acc h
    exact h
  | cons p ps ih =>
    intro acc h
    rw [startNew_cons]
    exact ih (startStep acc p) (startStep_recInv acc p h)

theorem healthCheck_of_recInv (desired : List String) (acc : Sys × List RAct)
    (h : recInv acc.1) : healthCheck desired acc = some acc := by
  unfold healthCheck
  apply health_fold_id
  · intro kv hkv
    obtain ⟨x, hx, _, hxid, hxal⟩ := h.1 kv hkv
    exact ⟨x, hx, hxid, hxal⟩
  · exact h.2.2.2.1

/-- C1 amended: the Reconciler computes the desired set from the definitions
file each cycle, but derives the actual set from the Status Store's keys (line
279), not from its running table: in every successful cycle the set of paths
it spawns Supervisors for is exactly `desired - storeKeys` and the set of
Store entries it deletes is exactly `storeKeys - desired`, independently of
the table of spawned Supervisors. -/
theorem C1_diffs_against_store_keys (desired : List String) (st : Sys)
    (res : Sys × List RAct) (hnd : st.storeKeys.Nodup)
    (h : reconcileCycle desired st = some res) :
    spawnKeys res.2 = listDiff desired st.storeKeys ∧
    delKeys res.2 = listDiff st.storeKeys desired := by
  rw [reconcileCycle_decomp] at h
  unfold healthCheck at h
  obtain ⟨hsp, hdl⟩ := health_fold_keys desired _ _ res h
  obtain ⟨hsp2, hdl2⟩ :=
    (startNew_parts (listDiff desired st.storeKeys)
      (stopRemoved (listDiff st.storeKeys desired) (st, []))).2.2.2
  obtain ⟨e, he, hspe⟩ := stopRemoved_evs (listDiff st.storeKeys desired) (st, [])
  have hdk : delKeys (stopRemoved (listDiff st.storeKeys desired) (st, [])).2 =
      delKeys ([] : List RAct) ++ listDiff st.storeKeys desired := by
    apply stopRemoved_delKeys
    · exact hnd.filter _
    · intro q hq
      exact List.mem_of_mem_filter hq
  constructor
  · rw [hsp, hsp2, he, spawnKeys_append, hspe]
    simp [spawnKeys]
  · rw [hdl, hdl2, hdk]
    simp [delKeys]

/-- State for the amended-claim witnesses: one registered service
`repos/old` with its live Supervisor (id 3). -/
def wSys : Sys :=
  { nextId := 4, storeKeys := ["repos/old"], managed := [("repos/old", 3)],
    sups := [⟨3, "repos/old", true, true, false⟩] }

/-- The result of reconciling `wSys` against the single desired path
`repos/new`. -/
def wRes : Sys × List RAct :=
  ({ nextId := 5,
     storeKeys := [],
     managed := [("repos/new", 4)],
     sups := [⟨3, "repos/old", false, true, false⟩,
       ⟨4, "repos/new", true, false, false⟩] },
   [RAct.termSignal 3, RAct.joinBounded 3, RAct.delStore "repos/old",
     RAct.spawn "repos/new" 4])

theorem C1_diffs_against_store_keys_witness :
    wSys.storeKeys.Nodup ∧
    reconcileCycle ["repos/new"] wSys = some wRes ∧
    (spawnKeys wRes.2 = listDiff ["repos/new"] wSys.storeKeys ∧
      delKeys wRes.2 = listDiff wSys.storeKeys ["repos/new"]) :=
  ⟨by decide, by decide,
    C1_diffs_against_store_keys ["repos/new"] wSys wRes (by decide) (by decide)⟩

/-- C2 amended: provided the Store does not lag - every live Supervisor's key
is already registered in the Store - and the Reconciler's book-keeping is
consistent, a reconciliation cycle succeeds and every Supervisor it starts
(those with fresh ids) is for a key that is not in the Store and is held by
no live Supervisor.  Under lag the claim fails (see the counterexample):
key uniqueness is guaranteed only in the lag-free system. -/
theorem C2_no_duplicate_start_without_lag (desired : List String) (st : Sys)
    (hinv : recInv st)
    (hreg : ∀ x ∈ st.sups, x.alive = true → x.key ∈ st.storeKeys) :
    ∃ res, reconcileCycle desired st = some res ∧
      ∀ x ∈ res.1.sups, st.nextId ≤ x.id →
        x.key ∉ st.storeKeys ∧ ∀ y ∈ st.sups, y.alive = true → y.key ≠ x.key := by
  rw [reconcileCycle_decomp]
  have hinv1 : recInv (stopRemoved (listDiff st.storeKeys desired) (st, [])).1 :=
    stopRemoved_recInv _ (st, []) hinv
  have hinv2 : recInv (startNew (listDiff desired st.storeKeys)
      (stopRemoved (listDiff st.storeKeys desired) (st, []))).1 :=
    startNew_recInv _ _ hinv1
  refine ⟨_, healthCheck_of_recInv desired _ hinv2, ?_⟩
  intro x hx hge
  have hsups := (startNew_parts (listDiff desired st.storeKeys)
    (stopRemoved (listDiff st.storeKeys desired) (st, []))).1
  have hnx1 : (stopRemoved (listDiff st.storeKeys desired) (st, [])).1.nextId
      = st.nextId := stopRemoved_nextId _ (st, [])
  rw [hsups, hnx1] at hx
  rcases List.mem_append.mp hx with hold | hfresh
  · exfalso
    have hidmem : x.id ∈
        ((stopRemoved (listDiff st.storeKeys desired) (st, [])).1.sups).map Sup.id :=
      List.mem_map_of_mem Sup.id hold
    rw [stopRemoved_sups_ids _ (st, [])] at hidmem
    obtain ⟨y, hy, hyid⟩ := List.mem_map.mp hidmem
    have := hinv.2.2.2.2 y hy
    omega
  · obtain ⟨hkey, _, _⟩ := mem_freshSups (listDiff desired st.storeKeys)
      st.nextId x hfresh
    have hknotin : x.key ∉ st.storeKeys := by
      have := List.of_mem_filter hkey
      simpa using this
    refine ⟨hknotin, ?_⟩
    intro y hy hyal heq
    exact hknotin (heq ▸ hreg y hy hyal)

theorem C2_no_duplicate_start_witness :
    recInv wSys ∧
    (∀ x ∈ wSys.sups, x.alive = true → x.key ∈ wSys.storeKeys) ∧
    (∃ res, reconcileCycle ["repos/new"] wSys = some res ∧
      ∀ x ∈ res.1.sups, wSys.nextId ≤ x.id →
        x.key ∉ wSys.storeKeys ∧
        ∀ y ∈ wSys.sups, y.alive = true → y.key ≠ x.key) := by
  have hinv : recInv wSys := by
    refine ⟨?_, by decide, by decide, by decide, ?_⟩
    · intro kv hkv
      have hkv2 : kv = ("repos/old", 3) := by
        simpa [wSys] using hkv
      subst hkv2
      exact ⟨⟨3, "repos/old", true, true, false⟩, by simp [wSys], rfl, rfl, rfl⟩
    · intro x hx
      have hx2 : x = ⟨3, "repos/old", true, true, false⟩ := by
        simpa [wSys] using hx
      subst hx2
      decide
  have hreg : ∀ x ∈ wSys.sups, x.alive = true → x.key ∈ wSys.storeKeys := by
    intro x hx _
    have hx2 : x = ⟨3, "repos/old", true, true, false⟩ := by
      simpa [wSys] using hx
    subst hx2
    simp [wSys]
  exact ⟨hinv, hreg, C2_no_duplicate_start_without_lag ["repos/new"] wSys hinv hreg⟩

/-- Every running-table entry whose key is in the removed set has a
termination signal for its Supervisor among the removal loop's actions. -/
theorem stopRemoved_termSignals (ps : List String) : ∀ acc : Sys × List RAct,
    recInv acc.1 →
    ∀ kv ∈ acc.1.managed, kv.1 ∈ ps →
      RAct.termSignal kv.2 ∈ (stopRemoved ps acc).2 := by
  induction ps with
  | nil =>
    intro acc _ kv _ h
    cases h
  | cons p ps ih =>
    intro acc hinv kv hkv hmem
    rw [stopRemoved_cons]
    by_cases hkp : kv.1 = p
    · have hfind : acc.1.managed.find? (fun e => e.1 == p) = some kv :=
        find?_key_unique acc.1.managed p kv hinv.2.1 hkv hkp
      obtain ⟨x, hx, hxkey, hxid, hxal⟩ := hinv.1 kv hkv
      have hfinds : acc.1.sups.find? (fun y : Sup => y.id == kv.2) = some x :=
        find?_id_unique acc.1.sups kv.2 x hinv.2.2.2.1 hx hxid
      have hmemterm : RAct.termSignal kv.2 ∈ (stopStep acc p).2 := by
        obtain ⟨s, evs⟩ := acc
        by_cases hs : p ∈ s.storeKeys <;>
          simp [stopStep, hfind, hfinds, hxal, hs]
      obtain ⟨e, he, _⟩ := stopRemoved_evs ps (stopStep acc p)
      rw [he]
      exact List.mem_append_left e hmemterm
    · have hkv2 : kv ∈ (stopStep acc p).1.managed := by
        rw [(stopStep_parts acc p).2.2.1]
        apply List.mem_filter.mpr
        exact ⟨hkv, by simp [hkp]⟩
      have hmem2 : kv.1 ∈ ps := by
        rcases List.mem_cons.mp hmem with h | h
        · exact absurd h hkp
        · exact h
      exact ih (stopStep acc p) (stopStep_recInv acc p hinv) kv hkv2 hmem2

/-- C10: when the definitions file does not exist, parsing returns the empty
mapping without raising, so the next reconciliation cycle treats every
tracked service as removed: a termination signal is sent to every Supervisor
in the running table, every Status Store entry is deleted, and both the Store
and the running table end the cycle empty. -/
theorem C10_missing_file_removes_all (file : Option (List String)) (st : Sys)
    (hfile : file = none) (hnd : st.storeKeys.Nodup) (hinv : recInv st)
    (hsub : ∀ kv ∈ st.managed, kv.1 ∈ st.storeKeys) :
    parse_services_file file = [] ∧
    ∃ res, reconcileCycle (servicePaths (parse_services_file file)) st = some res ∧
      res.1.storeKeys = [] ∧ res.1.managed = [] ∧
      (∀ p ∈ st.storeKeys, RAct.delStore p ∈ res.2) ∧
      (∀ kv ∈ st.managed, RAct.termSignal kv.2 ∈ res.2) := by
  subst hfile
  refine ⟨rfl, ?_⟩
  show ∃ res, reconcileCycle [] st = some res ∧ _
  rw [reconcileCycle_decomp]
  have hrm : listDiff st.storeKeys [] = st.storeKeys := by
    simp [listDiff]
  have had : listDiff [] st.storeKeys = ([] : List String) := rfl
  rw [hrm, had]
  have hstart : startNew [] (stopRemoved st.storeKeys (st, [])) =
      stopRemoved st.storeKeys (st, []) := rfl
  rw [hstart]
  have hinv1 : recInv (stopRemoved st.storeKeys (st, [])).1 :=
    stopRemoved_recInv _ (st, []) hinv
  refine ⟨_, healthCheck_of_recInv [] _ hinv1, ?_, ?_, ?_, ?_⟩
  · rw [stopRemoved_storeKeys]
    apply List.filter_eq_nil_iff.mpr
    intro q hq
    simp [hq]
  · rw [stopRemoved_managed]
    apply List.filter_eq_nil_iff.mpr
    intro kv hkv
    simp [hsub kv hkv]
  · intro p hp
    apply delStore_mem_of_mem_delKeys
    rw [stopRemoved_delKeys st.storeKeys (st, []) hnd (fun q hq => hq)]
    simpa [delKeys] using hp
  · intro kv hkv
    exact stopRemoved_termSignals st.storeKeys (st, []) hinv kv hkv (hsub kv hkv)

theorem C10_missing_file_removes_all_witness :
    wSys.storeKeys.Nodup ∧
    (∀ kv ∈ wSys.managed, kv.1 ∈ wSys.storeKeys) ∧
    (parse_services_file none = [] ∧
      ∃ res, reconcileCycle (servicePaths (parse_services_file none)) wSys =
          some res ∧
        res.1.storeKeys = [] ∧ res.1.managed = [] ∧
        (∀ p ∈ wSys.storeKeys, RAct.delStore p ∈ res.2) ∧
        (∀ kv ∈ wSys.managed, RAct.termSignal kv.2 ∈ res.2)) := by
  have hinv : recInv wSys := by
    refine ⟨?_, by decide, by decide, by decide, ?_⟩
    · intro kv hkv
      have hkv2 : kv = ("repos/old", 3) := by
        simpa [wSys] using hkv
      subst hkv2
      exact ⟨⟨3, "repos/old", true, true, false⟩, by simp [wSys], rfl, rfl, rfl⟩
    · intro x hx
      have hx2 : x = ⟨3, "repos/old", true, true, false⟩ := by
        simpa [wSys] using hx
      subst hx2
      decide
  have hsub : ∀ kv ∈ wSys.managed, kv.1 ∈ wSys.storeKeys := by
    intro kv hkv
    have hkv2 : kv = ("repos/old", 3) := by
      simpa [wSys] using hkv
    subst hkv2
    simp [wSys]
  exact ⟨by decide, hsub,
    C10_missing_file_removes_all none wSys rfl (by decide) hinv hsub⟩

end AutoExec
